import Mathlib

/-!
Shallow embedding of the go-ibft validator manager (`core/validator_manager.go`).

Modelling conventions:
- `big.Int` values become unbounded `Int` (arbitrary precision, no overflow).
- Go's `map[string]*big.Int` becomes an association list `List (Addr × Int)`
  queried with `List.lookup`; Go map keys are unique, and only lookup and the
  sum of all values are ever used.
- Go's `map[string]struct{}` sender sets become `Finset Addr` (distinct
  addresses, iteration order irrelevant for a commutative sum).
- Addresses are Go byte-strings (`string(bytes)`); byte-exact equality is
  string equality, modelled with Lean `String`.
- Pointer-receiver methods that may mutate the manager return the post-call
  state paired with the returned error (`ValidatorManager × Option Err`).
- `vm.log.Error` calls are modelled as an explicit list of emitted log lines.
-/

/-- Validator or sender address: an opaque byte sequence with byte-exact
equality, used as a Go map key via `string(...)` conversion. -/
abbrev Addr := String

/-- Errors of the embedded code: the dedicated `errVotingPowerNotCorrect`
("total voting power is zero or less") and arbitrary backend errors. -/
inductive Err where
  | errVotingPowerNotCorrect : Err
  | backendError : String → Err
deriving DecidableEq, Repr

/-- Modelled from the spec: the wire message type `proto.Message` (defined
outside `core/validator_manager.go`); the manager only reads its `From`
address field and treats the rest as opaque. -/
structure Message where
  From : Addr
deriving DecidableEq, Repr

/-- Modelled from the spec: the phase enum `stateType` of the outer consensus
state machine (defined outside `core/validator_manager.go`); the spec only
requires that the `prepare` phase be distinguishable from all other phases. -/
inductive stateType where
  | newRound
  | prepare
  | commit
  | fin
deriving DecidableEq, Repr

/-- The `ValidatorBackend` interface: per-height voting powers and the local
miner address, each either a value or an error. -/
structure ValidatorBackend where
  GetVotingPowers : Nat → Except Err (List (Addr × Int))
  GetMinerAddress : Except Err Addr

/-- `ValidatorManager` state: the quorum size, the voting-power map with `nil`
modelled as `none` (the uninitialized sentinel), the miner address and the
backend.  The `sync.RWMutex` and the logger sink carry no data. -/
structure ValidatorManager where
  quorumSize : Int
  validatorsVotingPower : Option (List (Addr × Int))
  minerAddress : Addr
  backend : ValidatorBackend

/-- `calculateTotalVotingPower` sums all values of the voting-power map. -/
def calculateTotalVotingPower (validatorsVotingPower : List (Addr × Int)) : Int :=
  validatorsVotingPower.foldl (fun acc p => acc + p.2) 0

/-- `calculateQuorum` computes `FLOOR(2 * totalVotingPower / 3) + 1`;
`big.Int.Div` with the positive divisor 3 is floor division (`Int.fdiv`). -/
def calculateQuorum (totalVotingPower : Int) : Int :=
  (totalVotingPower * 2).fdiv 3 + 1

/-- `NewValidatorManager` fetches the miner address (propagating a failure)
and returns a manager with `quorumSize = 0` and a nil voting-power map. -/
def NewValidatorManager (backend : ValidatorBackend) : Except Err ValidatorManager :=
  match backend.GetMinerAddress with
  | .error e => .error e
  | .ok minerAddress =>
      .ok { quorumSize := 0
            validatorsVotingPower := none
            minerAddress := minerAddress
            backend := backend }

/-- `setCurrentVotingPower`: rejects a non-positive total with
`errVotingPowerNotCorrect` (leaving the state untouched), otherwise installs
the new map and the quorum size derived from its total. -/
def setCurrentVotingPower (vm : ValidatorManager)
    (validatorsVotingPower : List (Addr × Int)) : ValidatorManager × Option Err :=
  let totalVotingPower := calculateTotalVotingPower validatorsVotingPower
  if totalVotingPower ≤ 0 then
    (vm, some .errVotingPowerNotCorrect)
  else
    ({ vm with
        validatorsVotingPower := some validatorsVotingPower
        quorumSize := calculateQuorum totalVotingPower }, none)

/-- `Init` fetches the voting powers for `height` from the backend,
propagating a backend error unchanged, then installs them. -/
def ValidatorManager.Init (vm : ValidatorManager) (height : Nat) :
    ValidatorManager × Option Err :=
  match vm.backend.GetVotingPowers height with
  | .error e => (vm, some e)
  | .ok validatorsVotingPower => setCurrentVotingPower vm validatorsVotingPower

/-- `HasQuorum`: false on the uninitialized sentinel; otherwise sums the
stored voting power of every sender found in the map (absent senders add
nothing) and compares the aggregate against the quorum size with `≥`. -/
def ValidatorManager.HasQuorum (vm : ValidatorManager) (sendersAddrs : Finset Addr) : Bool :=
  match vm.validatorsVotingPower with
  | none => false
  | some w =>
      let messageVotePower := ∑ a ∈ sendersAddrs, ((w.lookup a).getD 0)
      decide (vm.quorumSize ≤ messageVotePower)

/-- `HasPrepareQuorum`: the prepare-phase policy, returning the boolean result
paired with the error-log lines emitted through `vm.log.Error`. -/
def ValidatorManager.HasPrepareQuorum (vm : ValidatorManager) (stateName : stateType)
    (proposalMessage : Option Message) (msgs : List Message) : Bool × List String :=
  match proposalMessage with
  | none =>
      if stateName = stateType.prepare then
        (false, ["HasPrepareQuorum - proposalMessage is not set"])
      else
        (false, [])
  | some proposalMessage =>
      let proposerAddress := proposalMessage.From
      if msgs.any (fun message => message.From == proposerAddress) then
        (false, ["HasPrepareQuorum - proposer is among signers but it is not expected to be"])
      else
        (vm.HasQuorum (insert proposerAddress (msgs.map Message.From).toFinset), [])

/-- Manager states reachable from construction by any sequence of calls:
`HasQuorum` and `HasPrepareQuorum` never write the state, and `Init` yields
the first component of the returned pair whether it succeeds or fails. -/
inductive Reachable : ValidatorManager → Prop where
  | new (backend : ValidatorBackend) (vm : ValidatorManager) :
      NewValidatorManager backend = .ok vm → Reachable vm
  | init (vm : ValidatorManager) (height : Nat) :
      Reachable vm → Reachable (vm.Init height).1

/-- A concrete backend used to evaluate the theorems on closed inputs. -/
def backendEx : ValidatorBackend :=
  { GetVotingPowers := fun height =>
      if height = 0 then .ok [("A", 1), ("B", 1), ("C", 1)] else .ok []
    GetMinerAddress := .ok "A" }

/-- The manager produced by `NewValidatorManager backendEx`. -/
def vmNew : ValidatorManager :=
  { quorumSize := 0
    validatorsVotingPower := none
    minerAddress := "A"
    backend := backendEx }

/-- A concrete initialized manager: weights `A,B,C ↦ 1`, total 3, quorum 3. -/
def vmEx : ValidatorManager :=
  { quorumSize := 3
    validatorsVotingPower := some [("A", 1), ("B", 1), ("C", 1)]
    minerAddress := "A"
    backend := backendEx }

example : calculateQuorum 3 = 3 := by decide
example : calculateQuorum 12 = 9 := by decide
example : vmEx.HasQuorum {"A", "B", "C"} = true := by decide
example : vmEx.HasQuorum {"A", "B"} = false := by decide
example : vmNew.HasQuorum {"A", "B", "C"} = false := by decide
example : (vmNew.Init 0).1.HasQuorum {"A", "B", "C"} = true := by decide

/-- A concrete initialized manager with the spec's second example: weights
`A ↦ 10, B ↦ 1, C ↦ 1`, total 12, quorum 9. -/
def vmEx2 : ValidatorManager :=
  { quorumSize := 9
    validatorsVotingPower := some [("A", 10), ("B", 1), ("C", 1)]
    minerAddress := "A"
    backend := backendEx }

/-- A successful lookup in an association list finds a stored pair. -/
theorem lookup_mem {l : List (Addr × Int)} {a : Addr} {v : Int}
    (h : l.lookup a = some v) : (a, v) ∈ l := by
  rcases List.lookup_eq_some_iff.mp h with ⟨l₁, l₂, rfl, -⟩
  simp

/-- C1: `HasQuorum` returns false when the stored weight mapping is unset;
otherwise it returns true iff the sum of the stored voting powers of exactly
those senders that appear in the mapping reaches the stored quorum threshold
(`≥`, not `>`), senders absent from the mapping contributing zero. -/
theorem hasQuorum_characterization (vm : ValidatorManager) (S : Finset Addr) :
    (vm.validatorsVotingPower = none → vm.HasQuorum S = false) ∧
    (∀ w, vm.validatorsVotingPower = some w →
      (vm.HasQuorum S = true ↔
        vm.quorumSize ≤
          ∑ a ∈ S.filter (fun a => (w.lookup a).isSome), (w.lookup a).getD 0)) := by
  constructor
  · intro h
    simp [ValidatorManager.HasQuorum, h]
  · intro w hw
    have hsum : ∑ a ∈ S.filter (fun a => (w.lookup a).isSome), (w.lookup a).getD 0
        = ∑ a ∈ S, (w.lookup a).getD 0 := by
      apply Finset.sum_filter_of_ne
      intro a _ hne
      cases h : w.lookup a with
      | none => simp [h] at hne
      | some v => simp [h]
    rw [hsum]
    simp [ValidatorManager.HasQuorum, hw]

/-- C1 witness: on the concrete initialized manager `vmEx` the full sender
set reaches quorum, via the characterization. -/
theorem hasQuorum_characterization_witness :
    vmEx.HasQuorum {"A", "B", "C"} = true :=
  ((hasQuorum_characterization vmEx {"A", "B", "C"}).2
    [("A", 1), ("B", 1), ("C", 1)] rfl).mpr (by decide)

/-- C2: for every non-negative total `T`, `calculateQuorum T` is exactly
`⌊2T/3⌋ + 1` (exact rational floor), which on non-negative inputs also equals
the truncating division form `(T * 2).tdiv 3 + 1`. -/
theorem calculateQuorum_floor_formula (T : Int) (h : 0 ≤ T) :
    calculateQuorum T = ⌊(2 * (T : ℚ)) / 3⌋ + 1 ∧
    calculateQuorum T = (T * 2).tdiv 3 + 1 := by
  constructor
  · unfold calculateQuorum
    rw [Int.fdiv_eq_ediv _ (by norm_num)]
    congr 1
    have hcast : (2 * (T : ℚ)) / 3 = ((T * 2 : ℤ) : ℚ) / ((3 : ℕ) : ℚ) := by
      push_cast
      ring
    rw [hcast, Rat.floor_intCast_div_natCast]
    norm_num
  · unfold calculateQuorum
    rw [Int.fdiv_eq_ediv _ (by norm_num), Int.tdiv_eq_ediv (by omega) (by norm_num)]

/-- C2 witness: evaluated at `T = 4`. -/
theorem calculateQuorum_floor_formula_witness :
    calculateQuorum 4 = ⌊(2 * ((4 : Int) : ℚ)) / 3⌋ + 1 ∧
    calculateQuorum 4 = ((4 : Int) * 2).tdiv 3 + 1 :=
  calculateQuorum_floor_formula 4 (by decide)

/-- C3: on a weight mapping with non-positive total, `setCurrentVotingPower`
returns `errVotingPowerNotCorrect` and leaves the state exactly as it was, so
`HasQuorum` behaves as before; `Init` does the same whenever the backend
delivers such a mapping. -/
theorem setCurrentVotingPower_rejects_nonpositive (vm : ValidatorManager)
    (w : List (Addr × Int)) (h : calculateTotalVotingPower w ≤ 0) :
    setCurrentVotingPower vm w = (vm, some Err.errVotingPowerNotCorrect) ∧
    (∀ S, ((setCurrentVotingPower vm w).1).HasQuorum S = vm.HasQuorum S) ∧
    (∀ height w', vm.backend.GetVotingPowers height = .ok w' →
      calculateTotalVotingPower w' ≤ 0 →
      vm.Init height = (vm, some Err.errVotingPowerNotCorrect)) := by
  refine ⟨?_, ?_, ?_⟩
  · simp [setCurrentVotingPower, h]
  · intro S
    simp [setCurrentVotingPower, h]
  · intro height w' hb hw'
    simp [ValidatorManager.Init, hb, setCurrentVotingPower, hw']

/-- C3 witness: the empty mapping (total 0) is rejected and `vmEx` is kept. -/
theorem setCurrentVotingPower_rejects_nonpositive_witness :
    setCurrentVotingPower vmEx [] = (vmEx, some Err.errVotingPowerNotCorrect) :=
  (setCurrentVotingPower_rejects_nonpositive vmEx [] (by decide)).1

/-- C4: whenever some prepare message carries the proposer's own address,
`HasPrepareQuorum` returns false, for every phase, manager state and
remaining messages. -/
theorem hasPrepareQuorum_proposer_among_preparers (vm : ValidatorManager)
    (stateName : stateType) (p : Message) (msgs : List Message)
    (h : ∃ m ∈ msgs, m.From = p.From) :
    (vm.HasPrepareQuorum stateName (some p) msgs).1 = false := by
  have hany : msgs.any (fun message => message.From == p.From) = true := by
    rcases h with ⟨m, hm, he⟩
    exact List.any_eq_true.mpr ⟨m, hm, by simp [he]⟩
  simp [ValidatorManager.HasPrepareQuorum, hany]

/-- C4 witness: on `vmEx2` the proposer `A` appears among the preparers;
the result is false although `{A, B}` alone would reach quorum. -/
theorem hasPrepareQuorum_proposer_among_preparers_witness :
    (vmEx2.HasPrepareQuorum stateType.prepare (some ⟨"A"⟩) [⟨"B"⟩, ⟨"A"⟩]).1 = false :=
  hasPrepareQuorum_proposer_among_preparers vmEx2 stateType.prepare ⟨"A"⟩
    [⟨"B"⟩, ⟨"A"⟩] (by decide)

/-- C5: with an absent proposal message `HasPrepareQuorum` returns false for
every phase; it logs exactly one error line when the phase is `prepare` and
none otherwise. -/
theorem hasPrepareQuorum_no_proposal (vm : ValidatorManager)
    (stateName : stateType) (msgs : List Message) :
    (vm.HasPrepareQuorum stateName none msgs).1 = false ∧
    (stateName = stateType.prepare →
      (vm.HasPrepareQuorum stateName none msgs).2.length = 1) ∧
    (stateName ≠ stateType.prepare →
      (vm.HasPrepareQuorum stateName none msgs).2 = []) := by
  refine ⟨?_, ?_, ?_⟩
  · by_cases h : stateName = stateType.prepare <;>
      simp [ValidatorManager.HasPrepareQuorum, h]
  · intro h
    simp [ValidatorManager.HasPrepareQuorum, h]
  · intro h
    simp [ValidatorManager.HasPrepareQuorum, h]

/-- C5 witness: one log line in the prepare phase, none in the commit phase. -/
theorem hasPrepareQuorum_no_proposal_witness :
    (vmEx.HasPrepareQuorum stateType.prepare none []).2.length = 1 ∧
    (vmEx.HasPrepareQuorum stateType.commit none []).2 = [] :=
  ⟨(hasPrepareQuorum_no_proposal vmEx stateType.prepare []).2.1 rfl,
   (hasPrepareQuorum_no_proposal vmEx stateType.commit []).2.2 (by decide)⟩

/-- C6: when no prepare message carries the proposer's address,
`HasPrepareQuorum` returns exactly `HasQuorum` of the set made of the
proposer's address and the senders of all messages, duplicates collapsed. -/
theorem hasPrepareQuorum_delegates_to_hasQuorum (vm : ValidatorManager)
    (stateName : stateType) (p : Message) (msgs : List Message)
    (h : ∀ m ∈ msgs, m.From ≠ p.From) :
    (vm.HasPrepareQuorum stateName (some p) msgs).1 =
      vm.HasQuorum (insert p.From (msgs.map Message.From).toFinset) := by
  have hany : msgs.any (fun message => message.From == p.From) = false := by
    simp only [List.any_eq_false, beq_iff_eq]
    exact h
  simp [ValidatorManager.HasPrepareQuorum, hany]

/-- C6 witness: with proposer `A` and prepare messages from `B`, `B`, `C`
(duplicate collapsed), the result matches `HasQuorum {A, B, C}` (true). -/
theorem hasPrepareQuorum_delegates_to_hasQuorum_witness :
    (vmEx.HasPrepareQuorum stateType.prepare (some ⟨"A"⟩) [⟨"B"⟩, ⟨"B"⟩, ⟨"C"⟩]).1 =
      vmEx.HasQuorum (insert "A" ([⟨"B"⟩, ⟨"B"⟩, ⟨"C"⟩].map Message.From).toFinset) :=
  hasPrepareQuorum_delegates_to_hasQuorum vmEx stateType.prepare ⟨"A"⟩
    [⟨"B"⟩, ⟨"B"⟩, ⟨"C"⟩] (by decide)

/-- C7: in every reachable manager state, either the weight mapping is the
uninitialized sentinel, or the total of the stored mapping is positive and
the stored quorum size is `calculateQuorum` of exactly that total. -/
theorem reachable_state_consistent (vm : ValidatorManager) (h : Reachable vm) :
    vm.validatorsVotingPower = none ∨
    ∃ w, vm.validatorsVotingPower = some w ∧
      0 < calculateTotalVotingPower w ∧
      vm.quorumSize = calculateQuorum (calculateTotalVotingPower w) := by
  induction h with
  | new backend vm hnew =>
      left
      unfold NewValidatorManager at hnew
      cases hb : backend.GetMinerAddress with
      | error e => rw [hb] at hnew; cases hnew
      | ok a => rw [hb] at hnew; cases hnew; rfl
  | init vm height hr ih =>
      unfold ValidatorManager.Init
      cases hb : vm.backend.GetVotingPowers height with
      | error e => exact ih
      | ok w' =>
          unfold setCurrentVotingPower
          by_cases hw : calculateTotalVotingPower w' ≤ 0
          · simpa [hw] using ih
          · right
            exact ⟨w', by simp [hw], by omega, by simp [hw]⟩

/-- C7 witness: the invariant at the concrete reachable state obtained by
constructing from `backendEx` and initializing at height 0. -/
theorem reachable_state_consistent_witness :
    (vmNew.Init 0).1.validatorsVotingPower = none ∨
    ∃ w, (vmNew.Init 0).1.validatorsVotingPower = some w ∧
      0 < calculateTotalVotingPower w ∧
      (vmNew.Init 0).1.quorumSize = calculateQuorum (calculateTotalVotingPower w) :=
  reachable_state_consistent (vmNew.Init 0).1
    (Reachable.init vmNew 0 (Reachable.new backendEx vmNew rfl))

/-- C8: for every positive total `T`, `1 ≤ calculateQuorum T ≤ T`. -/
theorem calculateQuorum_bounds (T : Int) (h : 0 < T) :
    1 ≤ calculateQuorum T ∧ calculateQuorum T ≤ T := by
  unfold calculateQuorum
  rw [Int.fdiv_eq_ediv _ (by norm_num)]
  omega

/-- C8 witness: evaluated at `T = 3`. -/
theorem calculateQuorum_bounds_witness :
    1 ≤ calculateQuorum 3 ∧ calculateQuorum 3 ≤ 3 :=
  calculateQuorum_bounds 3 (by decide)

/-- C9: on an initialized manager whose stored mapping holds only
non-negative voting powers, `HasQuorum` is monotone in the sender set. -/
theorem hasQuorum_monotone (vm : ValidatorManager) (w : List (Addr × Int))
    (hw : vm.validatorsVotingPower = some w)
    (hpos : ∀ p ∈ w, 0 ≤ p.2)
    (S S' : Finset Addr) (hsub : S ⊆ S')
    (hq : vm.HasQuorum S = true) : vm.HasQuorum S' = true := by
  simp only [ValidatorManager.HasQuorum, hw, decide_eq_true_eq] at hq ⊢
  refine le_trans hq ?_
  apply Finset.sum_le_sum_of_subset_of_nonneg hsub
  intro a _ _
  cases h : w.lookup a with
  | none => simp
  | some v =>
      have hv : (a, v) ∈ w := lookup_mem h
      simpa [h] using hpos _ hv

/-- C9 witness: on `vmEx2`, `{A}` reaches quorum and so does `{A, B}`. -/
theorem hasQuorum_monotone_witness : vmEx2.HasQuorum {"A", "B"} = true :=
  hasQuorum_monotone vmEx2 [("A", 10), ("B", 1), ("C", 1)] rfl (by decide)
    {"A"} {"A", "B"} (by decide) (by decide)
